import Mathlib

/-!
Shallow embedding of the mplex stream-multiplexer core
(`libp2p/stream_muxer/mplex/mplex.py`) and the raw connection wrapper
(`libp2p/network/connection/raw_connection.py`).

Bytes are modelled as `List Nat`; Python's unbounded integers as `Nat`.
Stateful methods of the `Mplex` class become pure functions over an explicit
`MplexState`; blocking (`await` that can suspend forever) is modelled with
`Option` (`none` = the task blocks and the operation never completes).
-/

namespace Mplex

/-- A byte string. -/
abbrev Bytes := List Nat

/-- Modelled from the spec: `encode_uvarint` lives in
`libp2p/stream_muxer/mplex/utils.py`, which is not part of the excerpted
source.  The spec (§6, glossary) describes the standard unsigned varint
(LEB128): 7 value bits per byte, low-order group first, high bit of a byte
set when more bytes follow. -/
def encode_uvarint (n : Nat) : Bytes :=
  if h : n < 0x80 then [n]
  else (n % 0x80 + 0x80) :: encode_uvarint (n / 0x80)
decreasing_by
  exact Nat.div_lt_self (by omega) (by omega)

/-- Modelled from the spec: `decode_uvarint_from_stream` lives in
`libp2p/stream_muxer/mplex/utils.py`, not in the excerpted source.  It reads
bytes one at a time, accumulating 7-bit groups little-endian, stopping at the
first byte with a clear continuation bit; if the stream does not yield a
complete varint the bounded wait elapses ("no frame yet"), modelled as
`none`.  On success it returns the value and the unconsumed remainder. -/
def decode_uvarint : Bytes → Option (Nat × Bytes)
  | [] => none
  | b :: rest =>
    if b < 0x80 then some (b, rest)
    else
      match decode_uvarint rest with
      | none => none
      | some (v, r) => some (b % 0x80 + 0x80 * v, r)

/-- Modelled from the spec: `HeaderTags.NewStream` lives in
`libp2p/stream_muxer/mplex/constants.py`, not in the excerpted source.
The spec (§6) fixes `0 = NewStream`. -/
def NewStream : Nat := 0

/-- `Mplex.write_to_stream`: writes the bytes to the raw connection and
returns the length written (`len(_bytes)`). -/
def write_to_stream (bs : Bytes) : Nat := bs.length

/-- `Mplex.send_message`: `header = (stream_id << 3) | flag`, varint-encode
it, varint-encode the payload length (`0` when `data is None`), concatenate
with the payload, and write.  Returns the emitted bytes together with the
value returned to the caller (`write_to_stream`'s count). -/
def send_message (flag : Nat) (data : Option Bytes) (stream_id : Nat) :
    Bytes × Nat :=
  let header := encode_uvarint ((stream_id <<< 3) ||| flag)
  match data with
  | none =>
    let bs := header ++ encode_uvarint 0
    (bs, write_to_stream bs)
  | some d =>
    let bs := header ++ encode_uvarint d.length ++ d
    (bs, write_to_stream bs)

/-- Result of one `Mplex.read_message` call.  `timeout` is the
`(None, None, None)` sentinel returned when `asyncio.TimeoutError` fires;
`frame` carries the decoded `stream_id`, `flag` and `message` plus the bytes
left unconsumed on the transport. -/
inductive ReadMessageResult
  | timeout
  | frame (stream_id flag : Nat) (message rest : Bytes)
deriving DecidableEq, Repr

/-- `Mplex.read_message` over the bytes currently available from the
transport: decode the header varint, then the length varint (an incomplete
varint means the bounded wait elapses — the `(None, None, None)` sentinel);
then `reader.read(length)`, which returns *up to* `length` bytes — it waits
only when no byte at all is available (and `length ≠ 0`), and otherwise
returns whatever is buffered, even if fewer than `length` bytes.  Finally
`flag = header & 0x07`, `stream_id = header >> 3`. -/
def read_message (input : Bytes) : ReadMessageResult :=
  match decode_uvarint input with
  | none => .timeout
  | some (header, r1) =>
    match decode_uvarint r1 with
    | none => .timeout
    | some (length, r2) =>
      if r2 = [] ∧ length ≠ 0 then .timeout
      else .frame (header >>> 3) (header &&& 0x07) (r2.take length)
        (r2.drop length)

/-- One `Mplex` connection's mutable state: `buffers` is the
`Dict[int, asyncio.Queue[bytes]]` mapping stream id to its inbound message
queue (an association list in Python dict insertion order; each queue is a
FIFO list, front = next message to `get`); `stream_queue` is the
`asyncio.Queue[int]` of stream ids awaiting acceptance; `next_stream_id`
models the connection-wide counter behind `self.conn.next_stream_id()`. -/
structure MplexState where
  buffers : List (Nat × List Bytes)
  stream_queue : List Nat
  next_stream_id : Nat
deriving DecidableEq, Repr

/-- Python `stream_id in self.buffers` / `self.buffers[stream_id]`:
dict lookup on the association list. -/
def lookupQ : List (Nat × List Bytes) → Nat → Option (List Bytes)
  | [], _ => none
  | (k, v) :: rest, sid => if k = sid then some v else lookupQ rest sid

/-- Python `self.buffers[stream_id] = asyncio.Queue()` and similar dict
assignment: overwrite in place if the key exists, else append (dict
insertion order). -/
def insertQ : List (Nat × List Bytes) → Nat → List Bytes →
    List (Nat × List Bytes)
  | [], sid, q => [(sid, q)]
  | (k, v) :: rest, sid, q =>
    if k = sid then (k, q) :: rest else (k, v) :: insertQ rest sid q

/-- Python `await self.buffers[stream_id].put(message)`: append `msg` to the
queue stored under `sid` (no-op if the key is absent, which the caller
guarantees cannot happen). -/
def pushQ : List (Nat × List Bytes) → Nat → Bytes →
    List (Nat × List Bytes)
  | [], _, _ => []
  | (k, v) :: rest, sid, msg =>
    if k = sid then (k, v ++ [msg]) :: rest else (k, v) :: pushQ rest sid msg

/-- The `MplexStream(stream_id, initiator, mplex_conn)` handle, restricted
to the fields the excerpted source constructs. -/
structure MplexStream where
  stream_id : Nat
  initiator : Bool
deriving DecidableEq, Repr

/-- `Mplex.open_stream`: allocate `stream_id = self.conn.next_stream_id()`
(modelled from the spec as the connection-wide monotonically increasing
counter, since `ISecureConn` is outside the excerpted source), build
`MplexStream(stream_id, True, self)`, set `self.buffers[stream_id]` to a
fresh empty queue, and `send_message(HeaderTags.NewStream, None, stream_id)`.
Returns the stream handle, the new state, and the bytes put on the wire. -/
def open_stream (st : MplexState) : MplexStream × MplexState × Bytes :=
  let sid := st.next_stream_id
  let stream : MplexStream := ⟨sid, true⟩
  let st' : MplexState :=
    { st with
      buffers := insertQ st.buffers sid []
      next_stream_id := sid + 1 }
  (stream, st', (send_message NewStream none sid).1)

/-- Result of `Mplex.read_buffer` / `Mplex.read_buffer_nonblocking`. -/
inductive ReadBufferResult
  | streamNotFound
  | blocked
  | noData
  | ok (msg : Bytes)
deriving DecidableEq, Repr

/-- `Mplex.read_buffer`: raise `StreamNotFound` when `stream_id` is not a
key of `self.buffers`; otherwise `await self.buffers[stream_id].get()` —
blocking forever when the queue is empty, else returning the front message.
The returned state is the state after the call. -/
def read_buffer (st : MplexState) (stream_id : Nat) :
    ReadBufferResult × MplexState :=
  match lookupQ st.buffers stream_id with
  | none => (.streamNotFound, st)
  | some [] => (.blocked, st)
  | some (m :: rest) =>
    (.ok m, { st with buffers := insertQ st.buffers stream_id rest })

/-- `Mplex.read_buffer_nonblocking`: raise `StreamNotFound` when the id is
absent; return `None` (`noData`) when the queue is empty; else the front
message. -/
def read_buffer_nonblocking (st : MplexState) (stream_id : Nat) :
    ReadBufferResult × MplexState :=
  match lookupQ st.buffers stream_id with
  | none => (.streamNotFound, st)
  | some [] => (.noData, st)
  | some (m :: rest) =>
    (.ok m, { st with buffers := insertQ st.buffers stream_id rest })

/-- `Mplex.accept_stream`: `stream_id = await self.stream_queue.get()`
(blocks forever — `none` — when the queue is empty and nothing will refill
it from inside this loop iteration), build
`MplexStream(stream_id, False, self)` and fire off the generic protocol
handler on it.  Returns the new state and the handle the handler got. -/
def accept_stream (st : MplexState) : Option (MplexState × MplexStream) :=
  match st.stream_queue with
  | [] => none
  | sid :: rest => some ({ st with stream_queue := rest }, ⟨sid, false⟩)

/-- One decoded frame, as `Mplex.read_message` hands it to
`Mplex.handle_incoming`. -/
structure Frame where
  stream_id : Nat
  flag : Nat
  message : Bytes
deriving DecidableEq, Repr

/-- One iteration body of `Mplex.handle_incoming` for a decoded (non-`None`)
frame: if `stream_id not in self.buffers`, create its queue and put the id
on `stream_queue`; if `flag == HeaderTags.NewStream.value`, `await
accept_stream()`; if `message` is truthy (non-empty), put it on the stream's
buffer.  `none` means the iteration blocked forever inside `accept_stream`;
otherwise the result carries the new state and the list of stream handles
dispatched to the generic protocol handler during this iteration. -/
def handle_frame (st : MplexState) (f : Frame) :
    Option (MplexState × List MplexStream) :=
  let st1 :=
    if (lookupQ st.buffers f.stream_id).isNone then
      { st with
        buffers := insertQ st.buffers f.stream_id []
        stream_queue := st.stream_queue ++ [f.stream_id] }
    else st
  let step2 : Option (MplexState × List MplexStream) :=
    if f.flag = NewStream then
      match accept_stream st1 with
      | none => none
      | some (st2, stream) => some (st2, [stream])
    else some (st1, [])
  match step2 with
  | none => none
  | some (st2, handled) =>
    if f.message ≠ [] then
      (some ({ st2 with buffers := pushQ st2.buffers f.stream_id f.message },
        handled))
    else some (st2, handled)

/-- `Mplex.handle_incoming` over a finite list of decoded frames delivered
by successive `read_message` calls (iterations whose `read_message` returned
the `(None, None, None)` sentinel change nothing and are omitted).  `none`
means some iteration blocked forever.  Collects every stream handle
dispatched to the generic protocol handler, in dispatch order. -/
def handle_incoming (st : MplexState) :
    List Frame → Option (MplexState × List MplexStream)
  | [] => some (st, [])
  | f :: fs =>
    match handle_frame st f with
    | none => none
    | some (st', handled) =>
      match handle_incoming st' fs with
      | none => none
      | some (st'', handled') => some (st'', handled ++ handled')

/-- `Mplex.is_closed` raises `NotImplementedError()`; modelled as an
`Except` whose error is that exception. -/
inductive PyError
  | notImplementedError
deriving DecidableEq, Repr

/-- `Mplex.is_closed`: the method body is `raise NotImplementedError()`. -/
def is_closed : Except PyError Bool := .error .notImplementedError

/-- The queue contents a stream id currently holds (empty when absent). -/
def queueOf (st : MplexState) (sid : Nat) : List Bytes :=
  (lookupQ st.buffers sid).getD []

/-- Membership in the stream table. -/
def inTable (st : MplexState) (sid : Nat) : Bool :=
  (lookupQ st.buffers sid).isSome

/-- The non-empty payloads carried by the frames of stream `sid`, in arrival
order — exactly what `handle_incoming` is supposed to enqueue for `sid`. -/
def payloads_for (sid : Nat) (frames : List Frame) : List Bytes :=
  (frames.filter fun f => f.stream_id == sid && !f.message.isEmpty).map
    Frame.message

/-- One multiplexer operation, for stating state invariants over arbitrary
interleavings of the code paths that touch `buffers`. -/
inductive MuxOp
  | openStream
  | frame (f : Frame)
  | readB (sid : Nat)
  | readNB (sid : Nat)
deriving DecidableEq, Repr

/-- Apply one operation to the connection state (`none` = the operation
blocked forever inside `accept_stream`). -/
def applyOp (st : MplexState) : MuxOp → Option MplexState
  | .openStream => some (open_stream st).2.1
  | .frame f => (handle_frame st f).map Prod.fst
  | .readB sid => some (read_buffer st sid).2
  | .readNB sid => some (read_buffer_nonblocking st sid).2

/-- Apply a list of operations in order. -/
def applyOps (st : MplexState) : List MuxOp → Option MplexState
  | [] => some st
  | op :: ops =>
    match applyOp st op with
    | none => none
    | some st' => applyOps st' ops

end Mplex

namespace RawConn

/-- Outcome of one call into the underlying asyncio stream object
(`writer.write`, `writer.drain`, `reader.read`): either a normal return, a
`ConnectionResetError`, or some other exception. -/
inductive LowIOResult (α : Type)
  | ok (a : α)
  | connectionResetError
  | otherError
deriving DecidableEq, Repr

/-- The behaviour of the underlying asyncio stream during one
`RawConnection` call: what `writer.write`, `writer.drain` and
`reader.read(n)` would each do if reached. -/
structure StreamBehavior where
  write_res : LowIOResult Unit
  drain_res : LowIOResult Unit
  read_res : LowIOResult Mplex.Bytes
deriving DecidableEq, Repr

/-- Outcome of a `RawConnection` method: normal return, the raised
`RawConnError`, or a propagated non-reset exception. -/
inductive RawResult (α : Type)
  | ok (a : α)
  | rawConnError
  | otherError
deriving DecidableEq, Repr

/-- `RawConnection.write`: `self.writer.write(data)` with
`ConnectionResetError` re-raised as `RawConnError`, then (under the drain
lock) `await self.writer.drain()` with `ConnectionResetError` re-raised as
`RawConnError`.  Any other exception propagates unchanged. -/
def write (b : StreamBehavior) : RawResult Unit :=
  match b.write_res with
  | .connectionResetError => .rawConnError
  | .otherError => .otherError
  | .ok _ =>
    match b.drain_res with
    | .connectionResetError => .rawConnError
    | .otherError => .otherError
    | .ok _ => .ok ()

/-- `RawConnection.read`: `await self.reader.read(n)` with
`ConnectionResetError` re-raised as `RawConnError`; on success the bytes
read are returned. -/
def read (b : StreamBehavior) : RawResult Mplex.Bytes :=
  match b.read_res with
  | .connectionResetError => .rawConnError
  | .otherError => .otherError
  | .ok bs => .ok bs

end RawConn

namespace Mplex

/-! ### Varint and header lemmas -/

theorem encode_uvarint_ne_nil (n : Nat) : encode_uvarint n ≠ [] := by
  unfold encode_uvarint
  split <;> simp

theorem encode_uvarint_length_pos (n : Nat) :
    0 < (encode_uvarint n).length :=
  List.length_pos.mpr (encode_uvarint_ne_nil n)

/-- Round trip of the modelled varint codec, with arbitrary trailing bytes. -/
theorem decode_encode_uvarint (n : Nat) (rest : Bytes) :
    decode_uvarint (encode_uvarint n ++ rest) = some (n, rest) := by
  induction n using Nat.strong_induction_on with
  | _ n ih =>
    unfold encode_uvarint
    split
    · simp only [List.cons_append, List.nil_append, decode_uvarint]
      simp [*]
    · have hn : ¬ n < 0x80 := by assumption
      have hdiv : n / 0x80 < n := Nat.div_lt_self (by omega) (by omega)
      simp only [List.cons_append, decode_uvarint]
      rw [if_neg (by omega)]
      simp only [List.append_eq]
      rw [ih (n / 0x80) hdiv]
      simp only [List.append_eq]
      simp
      omega

theorem header_and_7 (stream_id flag : Nat) (h : flag ≤ 7) :
    ((stream_id <<< 3) ||| flag) &&& 0x07 = flag := by
  have h7 : (0x07 : Nat) = 2 ^ 3 - 1 := by norm_num
  rw [h7, Nat.and_distrib_right, Nat.and_pow_two_sub_one_eq_mod,
    Nat.and_pow_two_sub_one_eq_mod, Nat.shiftLeft_eq]
  have h1 : stream_id * 2 ^ 3 % 2 ^ 3 = 0 := Nat.mul_mod_left _ _
  have h2 : flag % 2 ^ 3 = flag := Nat.mod_eq_of_lt (by omega)
  rw [h1, h2]
  exact Nat.zero_or flag

theorem header_shift_3 (stream_id flag : Nat) (h : flag ≤ 7) :
    ((stream_id <<< 3) ||| flag) >>> 3 = stream_id := by
  apply Nat.eq_of_testBit_eq
  intro i
  rw [Nat.testBit_shiftRight, Nat.testBit_lor]
  have hf : flag.testBit (3 + i) = false := by
    apply Nat.testBit_lt_two_pow
    calc flag < 2 ^ 3 := by omega
    _ ≤ 2 ^ (3 + i) := Nat.pow_le_pow_right (by omega) (by omega)
  rw [hf, Bool.or_false, Nat.testBit_shiftLeft]
  simp [Nat.add_comm 3 i]

/-- Decoding the bytes `send_message` emits recovers the stream id, the
flag and the payload (`[]` when `data is None`), consuming every byte. -/
theorem read_message_send_message (flag stream_id : Nat) (data : Option Bytes)
    (hflag : flag ≤ 7) :
    read_message (send_message flag data stream_id).1 =
      .frame stream_id flag (data.getD []) [] := by
  have hb : (send_message flag data stream_id).1 =
      encode_uvarint ((stream_id <<< 3) ||| flag) ++
        (encode_uvarint (data.getD []).length ++ data.getD []) := by
    cases data <;> simp [send_message]
  rw [hb]
  simp only [read_message, decode_encode_uvarint]
  rw [if_neg (by rintro ⟨h1, h2⟩; simp [h1] at h2)]
  rw [List.take_length, List.drop_length, header_and_7 _ _ hflag,
    header_shift_3 _ _ hflag]

/-! ### Association-list lemmas -/

theorem lookupQ_insertQ (l : List (Nat × List Bytes)) (sid s : Nat)
    (q : List Bytes) :
    lookupQ (insertQ l sid q) s = if sid = s then some q else lookupQ l s := by
  induction l with
  | nil =>
    by_cases h : sid = s <;> simp [insertQ, lookupQ, h]
  | cons kv rest ih =>
    obtain ⟨k, v⟩ := kv
    by_cases hk : k = sid
    · by_cases hs : sid = s <;> simp [insertQ, lookupQ, hk, hs]
    · simp only [insertQ, if_neg hk]
      by_cases hks : k = s
      · have : ¬ sid = s := by omega
        simp [lookupQ, hks, this]
      · simp [lookupQ, hks, ih]

theorem lookupQ_pushQ (l : List (Nat × List Bytes)) (sid s : Nat)
    (msg : Bytes) :
    lookupQ (pushQ l sid msg) s =
      if sid = s then (lookupQ l s).map (· ++ [msg]) else lookupQ l s := by
  induction l with
  | nil =>
    by_cases h : sid = s <;> simp [pushQ, lookupQ, h]
  | cons kv rest ih =>
    obtain ⟨k, v⟩ := kv
    by_cases hk : k = sid
    · by_cases hs : sid = s <;> simp [pushQ, lookupQ, hk, hs]
    · simp only [pushQ, if_neg hk]
      by_cases hks : k = s
      · have : ¬ sid = s := by omega
        simp [lookupQ, hks, this]
      · simp [lookupQ, hks, ih]

/-! ### Demultiplex-loop lemmas -/

theorem getD_insert_fresh (bufs : List (Nat × List Bytes)) (sid s : Nat)
    (hfresh : lookupQ bufs sid = none) :
    (lookupQ (insertQ bufs sid []) s).getD [] = (lookupQ bufs s).getD [] := by
  rw [lookupQ_insertQ]
  by_cases h : sid = s
  · subst h
    simp [hfresh]
  · simp [h]

theorem getD_push_insert_fresh (bufs : List (Nat × List Bytes))
    (sid s : Nat) (msg : Bytes) (hfresh : lookupQ bufs sid = none) :
    (lookupQ (pushQ (insertQ bufs sid []) sid msg) s).getD [] =
      (lookupQ bufs s).getD [] ++ (if sid = s then [msg] else []) := by
  rw [lookupQ_pushQ, lookupQ_insertQ]
  by_cases h : sid = s
  · subst h
    simp [hfresh]
  · simp [h]

theorem getD_push_present (bufs : List (Nat × List Bytes)) (sid s : Nat)
    (msg : Bytes) (hpres : (lookupQ bufs sid).isSome) :
    (lookupQ (pushQ bufs sid msg) s).getD [] =
      (lookupQ bufs s).getD [] ++ (if sid = s then [msg] else []) := by
  rw [lookupQ_pushQ]
  by_cases h : sid = s
  · subst h
    cases hlk : lookupQ bufs sid with
    | none => rw [hlk] at hpres; simp at hpres
    | some q => simp [hlk]
  · simp [h]

/-- Effect of one `handle_incoming` iteration on the queue of stream `s`:
the frame's payload is appended exactly when it targets `s` and is
non-empty. -/
theorem queueOf_handle_frame (st : MplexState) (f : Frame) (st' : MplexState)
    (handled : List MplexStream) (s : Nat)
    (h : handle_frame st f = some (st', handled)) :
    queueOf st' s = queueOf st s ++
      (if f.stream_id = s ∧ f.message ≠ [] then [f.message] else []) := by
  unfold handle_frame at h
  by_cases hfresh : (lookupQ st.buffers f.stream_id).isNone
  · rw [if_pos hfresh] at h
    simp only [] at h
    have hfr : lookupQ st.buffers f.stream_id = none :=
      Option.isNone_iff_eq_none.mp hfresh
    by_cases hflag : f.flag = NewStream
    · rw [if_pos hflag] at h
      unfold accept_stream at h
      cases hq2 : st.stream_queue ++ [f.stream_id] with
      | nil => exact absurd hq2 (by simp)
      | cons a as =>
        simp only [hq2] at h
        by_cases hmsg : f.message = []
        · simp only [ne_eq, hmsg, not_true_eq_false, if_false,
            Option.some.injEq, Prod.mk.injEq] at h
          obtain ⟨h1, h2⟩ := h
          rw [← h1]
          simp [queueOf, hmsg, getD_insert_fresh st.buffers f.stream_id s hfr]
        · simp only [ne_eq, hmsg, not_false_eq_true, if_true,
            Option.some.injEq, Prod.mk.injEq] at h
          obtain ⟨h1, h2⟩ := h
          rw [← h1]
          simp only [queueOf, hmsg]
          rw [getD_push_insert_fresh st.buffers f.stream_id s f.message hfr]
          by_cases hfs : f.stream_id = s <;> simp [hfs, hmsg]
    · rw [if_neg hflag] at h
      by_cases hmsg : f.message = []
      · simp only [ne_eq, hmsg, not_true_eq_false, if_false,
          Option.some.injEq, Prod.mk.injEq] at h
        obtain ⟨h1, h2⟩ := h
        rw [← h1]
        simp [queueOf, hmsg, getD_insert_fresh st.buffers f.stream_id s hfr]
      · simp only [ne_eq, hmsg, not_false_eq_true, if_true,
          Option.some.injEq, Prod.mk.injEq] at h
        obtain ⟨h1, h2⟩ := h
        rw [← h1]
        simp only [queueOf, hmsg]
        rw [getD_push_insert_fresh st.buffers f.stream_id s f.message hfr]
        by_cases hfs : f.stream_id = s <;> simp [hfs, hmsg]
  · rw [if_neg hfresh] at h
    simp only [] at h
    have hpres : (lookupQ st.buffers f.stream_id).isSome := by
      cases hlk : lookupQ st.buffers f.stream_id with
      | none => rw [hlk] at hfresh; simp at hfresh
      | some q => simp
    by_cases hflag : f.flag = NewStream
    · rw [if_pos hflag] at h
      unfold accept_stream at h
      cases hq2 : st.stream_queue with
      | nil =>
        simp only [hq2] at h
        exact Option.noConfusion h
      | cons a as =>
        simp only [hq2] at h
        by_cases hmsg : f.message = []
        · simp only [ne_eq, hmsg, not_true_eq_false, if_false,
            Option.some.injEq, Prod.mk.injEq] at h
          obtain ⟨h1, h2⟩ := h
          rw [← h1]
          simp [queueOf, hmsg]
        · simp only [ne_eq, hmsg, not_false_eq_true, if_true,
            Option.some.injEq, Prod.mk.injEq] at h
          obtain ⟨h1, h2⟩ := h
          rw [← h1]
          simp only [queueOf, hmsg]
          rw [getD_push_present st.buffers f.stream_id s f.message hpres]
          by_cases hfs : f.stream_id = s <;> simp [hfs, hmsg]
    · rw [if_neg hflag] at h
      by_cases hmsg : f.message = []
      · simp only [ne_eq, hmsg, not_true_eq_false, if_false,
          Option.some.injEq, Prod.mk.injEq] at h
        obtain ⟨h1, h2⟩ := h
        rw [← h1]
        simp [queueOf, hmsg]
      · simp only [ne_eq, hmsg, not_false_eq_true, if_true,
          Option.some.injEq, Prod.mk.injEq] at h
        obtain ⟨h1, h2⟩ := h
        rw [← h1]
        simp only [queueOf, hmsg]
        rw [getD_push_present st.buffers f.stream_id s f.message hpres]
        by_cases hfs : f.stream_id = s <;> simp [hfs, hmsg]

theorem payloads_for_cons (sid : Nat) (f : Frame) (fs : List Frame) :
    payloads_for sid (f :: fs) =
      (if f.stream_id = sid ∧ f.message ≠ [] then [f.message] else []) ++
        payloads_for sid fs := by
  unfold payloads_for
  by_cases h1 : f.stream_id = sid
  · by_cases h2 : f.message = [] <;> simp [List.filter_cons, h1, h2]
  · simp [List.filter_cons, h1]

/-- Cumulative effect of the demultiplex loop on the queue of stream `s`:
the non-empty payloads of the frames addressed to `s` are appended in
arrival order (empty payloads are skipped). -/
theorem queueOf_handle_incoming (frames : List Frame) (st st' : MplexState)
    (handled : List MplexStream) (s : Nat)
    (h : handle_incoming st frames = some (st', handled)) :
    queueOf st' s = queueOf st s ++ payloads_for s frames := by
  induction frames generalizing st handled with
  | nil =>
    unfold handle_incoming at h
    simp only [Option.some.injEq, Prod.mk.injEq] at h
    obtain ⟨h1, h2⟩ := h
    simp [← h1, payloads_for]
  | cons f fs ih =>
    unfold handle_incoming at h
    cases hf : handle_frame st f with
    | none =>
      rw [hf] at h
      exact Option.noConfusion h
    | some p =>
      obtain ⟨st1, hd1⟩ := p
      rw [hf] at h
      simp only [] at h
      cases hrest : handle_incoming st1 fs with
      | none =>
        rw [hrest] at h
        simp at h
      | some q =>
        obtain ⟨st2, hd2⟩ := q
        rw [hrest] at h
        simp only [Option.some.injEq, Prod.mk.injEq] at h
        obtain ⟨h1, h2⟩ := h
        subst h1
        have e1 := queueOf_handle_frame st f st1 hd1 s hf
        have e2 := ih st1 hd2 hrest
        rw [e2, e1, payloads_for_cons, List.append_assoc]

theorem isSome_lookupQ_insertQ (bufs : List (Nat × List Bytes))
    (sid s : Nat) (q : List Bytes) (h : (lookupQ bufs s).isSome) :
    (lookupQ (insertQ bufs sid q) s).isSome := by
  rw [lookupQ_insertQ]
  by_cases hs : sid = s <;> simp [hs, h]

theorem isSome_lookupQ_pushQ (bufs : List (Nat × List Bytes))
    (sid s : Nat) (msg : Bytes) (h : (lookupQ bufs s).isSome) :
    (lookupQ (pushQ bufs sid msg) s).isSome := by
  rw [lookupQ_pushQ]
  by_cases hs : sid = s <;> simp [hs, h]

/-- The buffers after one `handle_incoming` iteration are obtained from the
old ones by at most a queue creation (`insertQ`) and a payload append
(`pushQ`) — keys are never removed. -/
theorem buffers_handle_frame (st : MplexState) (f : Frame) (st' : MplexState)
    (handled : List MplexStream)
    (h : handle_frame st f = some (st', handled)) :
    st'.buffers = st.buffers ∨
    st'.buffers = insertQ st.buffers f.stream_id [] ∨
    st'.buffers = pushQ st.buffers f.stream_id f.message ∨
    st'.buffers = pushQ (insertQ st.buffers f.stream_id []) f.stream_id
      f.message := by
  unfold handle_frame at h
  by_cases hfresh : (lookupQ st.buffers f.stream_id).isNone
  · rw [if_pos hfresh] at h
    simp only [] at h
    by_cases hflag : f.flag = NewStream
    · rw [if_pos hflag] at h
      unfold accept_stream at h
      cases hq2 : st.stream_queue ++ [f.stream_id] with
      | nil => exact absurd hq2 (by simp)
      | cons a as =>
        simp only [hq2] at h
        by_cases hmsg : f.message = []
        · simp only [ne_eq, hmsg, not_true_eq_false, if_false,
            Option.some.injEq, Prod.mk.injEq] at h
          obtain ⟨h1, h2⟩ := h
          rw [← h1]
          right; left; rfl
        · simp only [ne_eq, hmsg, not_false_eq_true, if_true,
            Option.some.injEq, Prod.mk.injEq] at h
          obtain ⟨h1, h2⟩ := h
          rw [← h1]
          right; right; right; rfl
    · rw [if_neg hflag] at h
      by_cases hmsg : f.message = []
      · simp only [ne_eq, hmsg, not_true_eq_false, if_false,
          Option.some.injEq, Prod.mk.injEq] at h
        obtain ⟨h1, h2⟩ := h
        rw [← h1]
        right; left; rfl
      · simp only [ne_eq, hmsg, not_false_eq_true, if_true,
          Option.some.injEq, Prod.mk.injEq] at h
        obtain ⟨h1, h2⟩ := h
        rw [← h1]
        right; right; right; rfl
  · rw [if_neg hfresh] at h
    simp only [] at h
    by_cases hflag : f.flag = NewStream
    · rw [if_pos hflag] at h
      unfold accept_stream at h
      cases hq2 : st.stream_queue with
      | nil =>
        simp only [hq2] at h
        exact Option.noConfusion h
      | cons a as =>
        simp only [hq2] at h
        by_cases hmsg : f.message = []
        · simp only [ne_eq, hmsg, not_true_eq_false, if_false,
            Option.some.injEq, Prod.mk.injEq] at h
          obtain ⟨h1, h2⟩ := h
          rw [← h1]
          left; rfl
        · simp only [ne_eq, hmsg, not_false_eq_true, if_true,
            Option.some.injEq, Prod.mk.injEq] at h
          obtain ⟨h1, h2⟩ := h
          rw [← h1]
          right; right; left; rfl
    · rw [if_neg hflag] at h
      by_cases hmsg : f.message = []
      · simp only [ne_eq, hmsg, not_true_eq_false, if_false,
          Option.some.injEq, Prod.mk.injEq] at h
        obtain ⟨h1, h2⟩ := h
        rw [← h1]
        left; rfl
      · simp only [ne_eq, hmsg, not_false_eq_true, if_true,
          Option.some.injEq, Prod.mk.injEq] at h
        obtain ⟨h1, h2⟩ := h
        rw [← h1]
        right; right; left; rfl

theorem inTable_handle_frame (st : MplexState) (f : Frame)
    (st' : MplexState) (handled : List MplexStream) (sid : Nat)
    (h : handle_frame st f = some (st', handled))
    (hs : inTable st sid) : inTable st' sid := by
  have hb := buffers_handle_frame st f st' handled h
  unfold inTable at *
  rcases hb with h1 | h1 | h1 | h1 <;> rw [h1]
  · exact hs
  · exact isSome_lookupQ_insertQ _ _ _ _ hs
  · exact isSome_lookupQ_pushQ _ _ _ _ hs
  · exact isSome_lookupQ_pushQ _ _ _ _ (isSome_lookupQ_insertQ _ _ _ _ hs)

theorem inTable_applyOp (st st' : MplexState) (op : MuxOp) (sid : Nat)
    (h : applyOp st op = some st') (hs : inTable st sid) :
    inTable st' sid := by
  cases op with
  | openStream =>
    simp only [applyOp, Option.some.injEq] at h
    rw [← h]
    exact isSome_lookupQ_insertQ _ _ _ _ hs
  | frame f =>
    simp only [applyOp] at h
    cases hf : handle_frame st f with
    | none =>
      rw [hf] at h
      simp at h
    | some p =>
      obtain ⟨st1, hd⟩ := p
      rw [hf] at h
      simp only [Option.map_some', Option.some.injEq] at h
      rw [← h]
      exact inTable_handle_frame st f st1 hd sid hf hs
  | readB s' =>
    simp only [applyOp, Option.some.injEq] at h
    rw [← h]
    unfold read_buffer
    cases hlk : lookupQ st.buffers s' with
    | none => exact hs
    | some q =>
      cases q with
      | nil => exact hs
      | cons m rest => exact isSome_lookupQ_insertQ _ _ _ _ hs
  | readNB s' =>
    simp only [applyOp, Option.some.injEq] at h
    rw [← h]
    unfold read_buffer_nonblocking
    cases hlk : lookupQ st.buffers s' with
    | none => exact hs
    | some q =>
      cases q with
      | nil => exact hs
      | cons m rest => exact isSome_lookupQ_insertQ _ _ _ _ hs

theorem inTable_applyOps (st st' : MplexState) (ops : List MuxOp) (sid : Nat)
    (h : applyOps st ops = some st') (hs : inTable st sid) :
    inTable st' sid := by
  induction ops generalizing st with
  | nil =>
    unfold applyOps at h
    simp only [Option.some.injEq] at h
    rw [← h]
    exact hs
  | cons op ops ih =>
    unfold applyOps at h
    cases hop : applyOp st op with
    | none =>
      rw [hop] at h
      exact Option.noConfusion h
    | some st1 =>
      rw [hop] at h
      exact ih st1 h (inTable_applyOp st st1 op sid hop hs)

/-! ### Claim theorems -/

/-- C1: Frame codec round-trip — for every `stream_id` in `[0, 2^61)`,
every `flag` in `[0, 7]` and every payload, decoding the bytes produced by
`send_message` (header `(stream_id << 3) | flag`, split back as
`flag = header & 0x7`, `stream_id = header >> 3`) yields exactly the
original `(stream_id, flag, payload)`, consuming the whole frame. -/
theorem frame_codec_round_trip (stream_id flag : Nat) (payload : Bytes)
    (hsid : stream_id < 2 ^ 61) (hflag : flag ≤ 7) :
    read_message (send_message flag (some payload) stream_id).1 =
      .frame stream_id flag payload [] := by
  simpa using read_message_send_message flag stream_id (some payload) hflag

/-- C1 witness: the round trip at `stream_id = 5`, `flag = 2`,
`payload = [104, 105]`. -/
theorem frame_codec_round_trip_witness :
    read_message (send_message 2 (some [104, 105]) 5).1 =
      .frame 5 2 [104, 105] [] :=
  frame_codec_round_trip 5 2 [104, 105] (by norm_num) (by norm_num)

/-- C2 counterexample: a NewStream frame whose stream id (7) already has a
record in the stream table, arriving while `stream_queue` is empty, makes
`handle_incoming` block forever inside `accept_stream` — zero handler
invocations occur, refuting "exactly one invocation bound to the frame's
stream id even when the id already has a record". -/
theorem new_stream_dispatch_counterexample :
    handle_frame ⟨[(7, [])], [], 0⟩ ⟨7, NewStream, []⟩ = none ∧
    (handle_frame ⟨[(7, [])], [], 0⟩ ⟨7, NewStream, []⟩).map Prod.snd ≠
      some [⟨7, false⟩] := by
  exact ⟨by decide, by decide⟩

/-- C2 (amended): for every NewStream frame whose stream id is not already
in the stream table, processed while the pending-new-streams queue is
empty, exactly one handler invocation occurs, and the stream handle passed
to the handler is bound to that frame's stream id (Receiver direction). -/
theorem new_stream_dispatch (st : MplexState) (f : Frame)
    (hfresh : lookupQ st.buffers f.stream_id = none)
    (hq : st.stream_queue = [])
    (hflag : f.flag = NewStream) :
    (handle_frame st f).map Prod.snd = some [⟨f.stream_id, false⟩] := by
  unfold handle_frame accept_stream
  rw [hflag, hfresh, hq]
  by_cases hmsg : f.message = [] <;> simp [hmsg]

/-- C2 witness: a NewStream frame for fresh id 4 with empty pending queue
dispatches exactly one handler, bound to id 4. -/
theorem new_stream_dispatch_witness :
    (handle_frame ⟨[], [], 0⟩ ⟨4, NewStream, [9]⟩).map Prod.snd =
      some [⟨4, false⟩] :=
  new_stream_dispatch ⟨[], [], 0⟩ ⟨4, NewStream, [9]⟩ rfl rfl rfl

/-- C3: per-stream FIFO delivery — when the demultiplex loop processes a
list of frames, the queue of any stream `s` afterwards is the old queue
followed by exactly the non-empty payloads of the frames addressed to `s`,
in arrival order (empty payloads are never enqueued); and each
`read_buffer` call returns the front of the queue, leaving the tail, so
successive reads return the enqueued chunks in that same order. -/
theorem per_stream_fifo (st st' : MplexState) (frames : List Frame)
    (handled : List MplexStream) (s : Nat)
    (h : handle_incoming st frames = some (st', handled)) :
    queueOf st' s = queueOf st s ++ payloads_for s frames ∧
    (∀ (st₀ : MplexState) (m : Bytes) (q : List Bytes),
      lookupQ st₀.buffers s = some (m :: q) →
      (read_buffer st₀ s).1 = .ok m ∧
        queueOf (read_buffer st₀ s).2 s = q) := by
  refine ⟨queueOf_handle_incoming frames st st' handled s h, ?_⟩
  intro st₀ m q hlk
  unfold read_buffer
  rw [hlk]
  simp [queueOf, lookupQ_insertQ]

/-- C3 witness: frames `(3, flag 1, [1])`, `(3, flag 1, [])`,
`(3, flag 1, [2])` leave stream 3's queue as `[[1], [2]]` (the empty
payload skipped), and reading returns `[1]` first. -/
theorem per_stream_fifo_witness :
    queueOf ⟨[(3, [[1], [2]])], [3], 0⟩ 3 =
      queueOf ⟨[], [], 0⟩ 3 ++
        payloads_for 3 [⟨3, 1, [1]⟩, ⟨3, 1, []⟩, ⟨3, 1, [2]⟩] ∧
    (read_buffer ⟨[(3, [[1], [2]])], [3], 0⟩ 3).1 = .ok [1] :=
  ⟨(per_stream_fifo ⟨[], [], 0⟩ ⟨[(3, [[1], [2]])], [3], 0⟩
      [⟨3, 1, [1]⟩, ⟨3, 1, []⟩, ⟨3, 1, [2]⟩] [] 3 (by decide)).1,
   ((per_stream_fifo ⟨[], [], 0⟩ ⟨[(3, [[1], [2]])], [3], 0⟩
      [⟨3, 1, [1]⟩, ⟨3, 1, []⟩, ⟨3, 1, [2]⟩] [] 3 (by decide)).2
      ⟨[(3, [[1], [2]])], [3], 0⟩ [1] [[2]] (by decide)).1⟩

/-- C4: `open_stream` postcondition — it allocates the next id from the
connection-wide counter (and bumps it), creates a stream record for that id
with an empty inbound queue, returns an Initiator-direction handle bound to
the allocated id, and puts on the wire exactly one NewStream frame with
empty payload: the header varint followed by the payload-length varint `0`
and no payload bytes, which decodes back to that single frame. -/
theorem open_stream_spec (st : MplexState) :
    (open_stream st).1.stream_id = st.next_stream_id ∧
    (open_stream st).1.initiator = true ∧
    (open_stream st).2.1.next_stream_id = st.next_stream_id + 1 ∧
    lookupQ (open_stream st).2.1.buffers (open_stream st).1.stream_id =
      some [] ∧
    (open_stream st).2.2 = (send_message NewStream none st.next_stream_id).1 ∧
    (open_stream st).2.2 =
      encode_uvarint ((st.next_stream_id <<< 3) ||| NewStream) ++ [0] ∧
    read_message (open_stream st).2.2 =
      .frame st.next_stream_id NewStream [] [] := by
  refine ⟨rfl, rfl, rfl, ?_, rfl, ?_, ?_⟩
  · simp [open_stream, lookupQ_insertQ]
  · simp only [open_stream, send_message, write_to_stream]
    unfold encode_uvarint
    simp
  · simpa [open_stream] using
      read_message_send_message NewStream st.next_stream_id none (by decide)

/-- C5: unknown id lookup — for every stream id absent from `buffers`, both
`read_buffer` and `read_buffer_nonblocking` raise `StreamNotFound` and
leave the whole state (stream table and every queue) unchanged. -/
theorem unknown_id_lookup (st : MplexState) (stream_id : Nat)
    (h : lookupQ st.buffers stream_id = none) :
    read_buffer st stream_id = (.streamNotFound, st) ∧
    read_buffer_nonblocking st stream_id = (.streamNotFound, st) := by
  unfold read_buffer read_buffer_nonblocking
  rw [h]
  exact ⟨rfl, rfl⟩

/-- C5 witness: id 3 is absent from a table holding only id 1. -/
theorem unknown_id_lookup_witness :
    read_buffer ⟨[(1, [])], [], 0⟩ 3 =
      (.streamNotFound, ⟨[(1, [])], [], 0⟩) ∧
    read_buffer_nonblocking ⟨[(1, [])], [], 0⟩ 3 =
      (.streamNotFound, ⟨[(1, [])], [], 0⟩) :=
  unknown_id_lookup ⟨[(1, [])], [], 0⟩ 3 (by decide)

/-- C6 (code evaluation): `read_message` does NOT distinguish decode
failures from the benign timeout sentinel.  A frame declaring a 5-byte
payload of which only 3 bytes are available is returned as a successfully
decoded frame with the truncated payload, and an incomplete (hence
malformed, if the stream stalls) varint produces the very same
`(None, None, None)` sentinel as "no frame yet". -/
theorem read_message_conflates_decode_failure :
    read_message [0x12, 0x05, 104, 101, 108] =
      .frame 2 2 [104, 101, 108] [] ∧
    read_message [0x80] = .timeout := by
  exact ⟨by decide, by decide⟩

/-- C7: transport reset surfacing — `RawConnection.write` raises the
distinguishable `RawConnError` exactly when the underlying stream raises
`ConnectionResetError` during the `write` or the reached `drain` step (any
other failure propagates as-is), and returns normally when both succeed;
`RawConnection.read` raises `RawConnError` exactly on a reset and returns
the bytes read on success. -/
theorem raw_conn_reset_surfacing (b : RawConn.StreamBehavior) :
    (RawConn.write b = .rawConnError ↔
      b.write_res = .connectionResetError ∨
        (b.write_res = .ok () ∧ b.drain_res = .connectionResetError)) ∧
    (b.write_res = .ok () → b.drain_res = .ok () →
      RawConn.write b = .ok ()) ∧
    (RawConn.read b = .rawConnError ↔
      b.read_res = .connectionResetError) ∧
    (∀ bs : Bytes, b.read_res = .ok bs → RawConn.read b = .ok bs) := by
  obtain ⟨w, d, r⟩ := b
  refine ⟨?_, ?_, ?_, ?_⟩ <;>
    cases w <;> cases d <;> cases r <;>
      simp [RawConn.write, RawConn.read]

/-- C7 witness: a reset during `write` surfaces as `RawConnError`; with no
reset, `write` returns normally and `read` returns the bytes. -/
theorem raw_conn_reset_surfacing_witness :
    RawConn.write ⟨.ok (), .ok (), .ok [7]⟩ = .ok () ∧
    RawConn.read ⟨.ok (), .ok (), .ok [7]⟩ = .ok [7] ∧
    RawConn.write ⟨.connectionResetError, .ok (), .ok [7]⟩ =
      .rawConnError :=
  ⟨(raw_conn_reset_surfacing ⟨.ok (), .ok (), .ok [7]⟩).2.1 rfl rfl,
   (raw_conn_reset_surfacing ⟨.ok (), .ok (), .ok [7]⟩).2.2.2 [7] rfl,
   (raw_conn_reset_surfacing
      ⟨.connectionResetError, .ok (), .ok [7]⟩).1.mpr (Or.inl rfl)⟩

/-- C8 (code evaluation): `is_closed` never returns a boolean — its body is
`raise NotImplementedError()`, so every call fails instead of reporting the
connection state. -/
theorem is_closed_raises :
    is_closed = Except.error PyError.notImplementedError ∧
    is_closed ≠ .ok true ∧ is_closed ≠ .ok false :=
  ⟨rfl, fun h => Except.noConfusion h, fun h => Except.noConfusion h⟩

/-- C9: stream-table membership invariant — the id `open_stream` returns is
in `buffers` before it returns; no multiplexer operation ever removes a key
from `buffers`; hence after any sequence of operations, `read_buffer` and
`read_buffer_nonblocking` on a locally opened stream's id never raise
`StreamNotFound`. -/
theorem stream_table_membership (st st₂ : MplexState) (ops : List MuxOp)
    (h : applyOps (open_stream st).2.1 ops = some st₂) :
    inTable (open_stream st).2.1 (open_stream st).1.stream_id = true ∧
    (∀ (st₀ st₁ : MplexState) (op : MuxOp) (sid : Nat),
      applyOp st₀ op = some st₁ → inTable st₀ sid = true →
      inTable st₁ sid = true) ∧
    inTable st₂ (open_stream st).1.stream_id = true ∧
    (read_buffer st₂ (open_stream st).1.stream_id).1 ≠ .streamNotFound ∧
    (read_buffer_nonblocking st₂ (open_stream st).1.stream_id).1 ≠
      .streamNotFound := by
  have h0 : inTable (open_stream st).2.1 (open_stream st).1.stream_id := by
    unfold inTable open_stream
    simp only []
    rw [lookupQ_insertQ]
    simp
  have h2 : inTable st₂ (open_stream st).1.stream_id :=
    inTable_applyOps _ _ ops _ h h0
  refine ⟨h0,
    fun st₀ st₁ op sid hop hs => inTable_applyOp st₀ st₁ op sid hop hs,
    h2, ?_, ?_⟩
  · unfold inTable at h2
    unfold read_buffer
    cases hlk : lookupQ st₂.buffers (open_stream st).1.stream_id with
    | none =>
      rw [hlk] at h2
      simp at h2
    | some q => cases q <;> simp
  · unfold inTable at h2
    unfold read_buffer_nonblocking
    cases hlk : lookupQ st₂.buffers (open_stream st).1.stream_id with
    | none =>
      rw [hlk] at h2
      simp at h2
    | some q => cases q <;> simp

/-- C9 witness: open a stream (id 0), then deliver a data frame for it and
read it back; id 0 stays in the table and reads never see
`StreamNotFound`. -/
theorem stream_table_membership_witness :
    inTable ⟨[(0, [])], [], 1⟩ 0 = true ∧
    (read_buffer ⟨[(0, [])], [], 1⟩ 0).1 ≠ .streamNotFound :=
  ⟨(stream_table_membership ⟨[], [], 0⟩ ⟨[(0, [])], [], 1⟩
      [.frame ⟨0, 1, [5]⟩, .readB 0] (by decide)).2.2.1,
   (stream_table_membership ⟨[], [], 0⟩ ⟨[(0, [])], [], 1⟩
      [.frame ⟨0, 1, [5]⟩, .readB 0] (by decide)).2.2.2.1⟩

/-- C10: bytes-written count — `send_message` returns the total length of
the encoded frame: the byte length of `varint((stream_id << 3) | flag)`
plus the byte length of the payload-length varint plus the payload length
(`data = None` treated as a zero-length payload); for non-empty data this
strictly exceeds `len(data)`. -/
theorem send_message_count (flag stream_id : Nat) (data : Option Bytes) :
    (send_message flag data stream_id).2 =
      (encode_uvarint ((stream_id <<< 3) ||| flag)).length +
        (encode_uvarint (data.getD []).length).length +
        (data.getD []).length ∧
    (∀ d : Bytes, data = some d → d ≠ [] →
      d.length < (send_message flag data stream_id).2) := by
  constructor
  · cases data <;> simp [send_message, write_to_stream] <;> omega
  · rintro d rfl hne
    have h1 := encode_uvarint_length_pos ((stream_id <<< 3) ||| flag)
    have h2 := encode_uvarint_length_pos d.length
    simp [send_message, write_to_stream]
    omega

/-- C10 witness: flag 2, stream id 7, two payload bytes — the count
strictly exceeds the payload length. -/
theorem send_message_count_witness :
    2 < (send_message 2 (some [1, 2]) 7).2 :=
  (send_message_count 2 7 (some [1, 2])).2 [1, 2] rfl (by simp)

end Mplex
